import Mathlib

/-!
Verification of the EIE3360 serial control-command framing protocol.

The development embeds the frame codec of transmitter.py (build_packet) and
receiver.py (parse_frame), the receive-side scanning loop of
receiver.py (main_listen_loop, modelled per received chunk by feed and
scanPass), and the stateful convenience wrappers of transmitter.py
(_update_state, motor, servo, modelled by their effect on the persistent
STATE record).

Bytes are modelled as natural numbers, byte strings as lists of naturals,
and Python integers as Int.  Failure paths that raise exceptions in the
Python source are modelled with Option.
-/

namespace ControlCommand

/-- Frame header sentinel byte, 0x0D, from FRAME_HEADER in both
transmitter.py and receiver.py. -/
def FRAME_HEADER : Nat := 0x0D

/-- Frame footer sentinel byte, 0x20, from FRAME_FOOTER in both
transmitter.py and receiver.py. -/
def FRAME_FOOTER : Nat := 0x20

/-- Total frame length, header + 9 payload bytes + footer, as computed in
main_listen_loop. -/
def frame_len : Nat := 11

/-- Low bit of a Python integer, as computed by the expression
1 if int(d) and 0x1 else 0 in build_packet and _update_state.  Lean's
Int mod with positive divisor agrees with Python's mod, so d \x25 2 is the
low bit of d in two's complement, for every integer d. -/
def pyBit0 (d : Int) : Nat := if d % 2 == 1 then 1 else 0

/-- Big-endian 16-bit encoding of one in-range value, as produced for each
H field of struct.pack with format >HHHHB in build_packet. -/
def be16 (v : Nat) : List Nat := [v / 256, v % 256]

/-- build_packet from transmitter.py.  Returns none where the source
raises ValueError (a PWM value outside 0..65535); otherwise returns the
full frame: header, four big-endian uint16 values, the direction byte
(bit0 from dir_m1_flag, bit1 from dir_m2_flag) and the footer. -/
def build_packet (m1 m2 s1 s2 dir_m1_flag dir_m2_flag : Int) : Option (List Nat) :=
  if 0 ≤ m1 ∧ m1 ≤ 0xFFFF ∧ 0 ≤ m2 ∧ m2 ≤ 0xFFFF ∧
     0 ≤ s1 ∧ s1 ≤ 0xFFFF ∧ 0 ≤ s2 ∧ s2 ≤ 0xFFFF then
    some (FRAME_HEADER ::
      (be16 m1.toNat ++ be16 m2.toNat ++ be16 s1.toNat ++ be16 s2.toNat ++
        [pyBit0 dir_m1_flag ||| (pyBit0 dir_m2_flag <<< 1)]) ++ [FRAME_FOOTER])
  else none

/-- Decoded control values as returned by parse_frame in receiver.py:
four magnitudes from struct.unpack and two direction booleans. -/
structure ControlValues where
  m1 : Nat
  m2 : Nat
  s1 : Nat
  s2 : Nat
  dir_m1 : Bool
  dir_m2 : Bool
deriving DecidableEq, Repr

/-- parse_frame from receiver.py.  The source slices off one leading and
one trailing byte (frame[1 : len(frame)-1]), raises ValueError unless the
remaining payload has exactly 9 bytes (modelled as none), and otherwise
unpacks four big-endian uint16 values and the direction byte, taking
dir_m1 from bit 0 and dir_m2 from bit 1.  Note the source never compares
the first byte with FRAME_HEADER nor the last byte with FRAME_FOOTER. -/
def parse_frame (frame : List Nat) : Option ControlValues :=
  let payload := (frame.drop 1).take (frame.length - 2)
  if payload.length = 9 then
    some {
      m1 := payload.getD 0 0 * 256 + payload.getD 1 0
      m2 := payload.getD 2 0 * 256 + payload.getD 3 0
      s1 := payload.getD 4 0 * 256 + payload.getD 5 0
      s2 := payload.getD 6 0 * 256 + payload.getD 7 0
      dir_m1 := payload.getD 8 0 &&& 0x01 != 0
      dir_m2 := payload.getD 8 0 &&& 0x02 != 0 }
  else none

/-- Index of the first header byte in the buffer, as computed by
buf.find(FRAME_HEADER) in main_listen_loop; none models the return
value -1. -/
def findHeader : List Nat → Option Nat
  | [] => none
  | b :: rest => if b == FRAME_HEADER then some 0 else (findHeader rest).map (· + 1)

/-- One pass of the scanning logic in the body of the while loop of
main_listen_loop, after a non-empty chunk has been appended to the
buffer: locate the first header byte (clearing the buffer when none is
present and it has grown past 2048 bytes), wait when fewer than frame_len
bytes are available from the header, discard the prefix through a header
whose 11-byte window does not end in the footer, and otherwise emit the
parsed candidate and drop the consumed bytes.  Returns the new buffer and
the list of emissions of this pass. -/
def scanPass (buf : List Nat) : List Nat × List (Option ControlValues) :=
  match findHeader buf with
  | none => if buf.length > 2048 then ([], []) else (buf, [])
  | some idx =>
    if buf.length - idx < frame_len then (buf, [])
    else
      let candidate := (buf.drop idx).take frame_len
      if candidate.getLast? == some FRAME_FOOTER then
        (buf.drop (idx + frame_len), [parse_frame candidate])
      else
        (buf.drop (idx + 1), [])

/-- One iteration of the while loop of main_listen_loop for one read
chunk: an empty read skips all processing (the source does continue),
and a non-empty chunk is appended to the buffer before a single scan
pass. -/
def feed (buf : List Nat) (chunk : List Nat) : List Nat × List (Option ControlValues) :=
  if chunk.isEmpty then (buf, [])
  else scanPass (buf ++ chunk)

/-- Iterated feeding of a sequence of read chunks, accumulating all
emissions in order. -/
def feedMany (buf : List Nat) : List (List Nat) → List Nat × List (Option ControlValues)
  | [] => (buf, [])
  | c :: cs =>
    let r := feed buf c
    let r2 := feedMany r.1 cs
    (r2.1, r.2 ++ r2.2)

/-- A structurally valid frame in the sense of the wire format: exactly
11 bytes, first byte the header sentinel, last byte the footer
sentinel. -/
def ValidFrame (f : List Nat) : Prop :=
  f.length = frame_len ∧ f.head? = some FRAME_HEADER ∧ f.getLast? = some FRAME_FOOTER

instance (f : List Nat) : Decidable (ValidFrame f) := by
  unfold ValidFrame; infer_instance

/-- The module-level persistent STATE dictionary of transmitter.py, with
its six fields. -/
structure TxState where
  m1 : Int
  m2 : Int
  s1 : Int
  s2 : Int
  d1 : Int
  d2 : Int
deriving DecidableEq, Repr

/-- Normalisation applied to direction fields by _update_state:
1 if int(d) and 0x1 else 0, as an integer. -/
def normDir (d : Int) : Int := if d % 2 == 1 then 1 else 0

/-- update_state models _update_state from transmitter.py: each
field of STATE is overwritten exactly when the corresponding argument is
not None, direction fields being normalised to their low bit. -/
def update_state (st : TxState) (m1 m2 s1 s2 d1 d2 : Option Int) : TxState :=
  { m1 := m1.getD st.m1
    m2 := m2.getD st.m2
    s1 := s1.getD st.s1
    s2 := s2.getD st.s2
    d1 := (d1.map normDir).getD st.d1
    d2 := (d2.map normDir).getD st.d2 }

/-- State effect of the motor function of transmitter.py: it calls
_update_state(m1=m1, m2=m2, d1=dir1, d2=dir2), touching no other field
(the subsequent send or hex formatting performs no state update). -/
def motor (st : TxState) (m1 m2 dir1 dir2 : Option Int) : TxState :=
  update_state st m1 m2 none none dir1 dir2

/-- State effect of the servo function of transmitter.py: it calls
_update_state(s1=s1, s2=s2), touching no other field. -/
def servo (st : TxState) (s1 s2 : Option Int) : TxState :=
  update_state st none none s1 s2 none none

example : build_packet 1000 1500 2000 2500 0 1 =
    some [0x0D, 0x03, 0xE8, 0x05, 0xDC, 0x07, 0xD0, 0x09, 0xC4, 0x02, 0x20] := by decide

example : parse_frame [0x0D, 0x03, 0xE8, 0x05, 0xDC, 0x07, 0xD0, 0x09, 0xC4, 0x02, 0x20] =
    some ⟨1000, 1500, 2000, 2500, false, true⟩ := by decide

/-- Reduction of scanPass once the header search result is known to be
some index. -/
theorem scanPass_eq_some (buf : List Nat) (idx : Nat) (h : findHeader buf = some idx) :
    scanPass buf =
      (if buf.length - idx < frame_len then (buf, [])
       else if ((buf.drop idx).take frame_len).getLast? == some FRAME_FOOTER then
         (buf.drop (idx + frame_len), [parse_frame ((buf.drop idx).take frame_len)])
       else (buf.drop (idx + 1), [])) := by
  unfold scanPass
  rw [h]

/-- Reduction of scanPass once the header search is known to fail. -/
theorem scanPass_eq_none (buf : List Nat) (h : findHeader buf = none) :
    scanPass buf = (if buf.length > 2048 then ([], []) else (buf, [])) := by
  unfold scanPass
  rw [h]

/-- Lists without the header byte have no header index. -/
theorem findHeader_eq_none (l : List Nat) (h : ∀ b ∈ l, b ≠ FRAME_HEADER) :
    findHeader l = none := by
  induction l with
  | nil => rfl
  | cons b rest ih =>
    have hb : ¬ (b == FRAME_HEADER) = true := by simpa using h b (by simp)
    show (if b == FRAME_HEADER then some 0
          else (findHeader rest).map (· + 1)) = none
    rw [if_neg hb, ih (fun x hx => h x (by simp [hx]))]
    rfl

/-- The first header byte after a header-free prefix is found at the
length of that prefix. -/
theorem findHeader_append (g t : List Nat) (hg : ∀ b ∈ g, b ≠ FRAME_HEADER) :
    findHeader (g ++ FRAME_HEADER :: t) = some g.length := by
  induction g with
  | nil => simp [findHeader]
  | cons b rest ih =>
    have hb : ¬ (b == FRAME_HEADER) = true := by simpa using hg b (by simp)
    have ih2 := ih (fun x hx => hg x (by simp [hx]))
    show (if b == FRAME_HEADER then some 0
          else (findHeader (rest ++ FRAME_HEADER :: t)).map (· + 1)) = some (rest.length + 1)
    rw [if_neg hb, ih2]
    rfl

/-- A valid frame is a header byte followed by its remaining ten bytes. -/
theorem ValidFrame.eq_cons {F : List Nat} (hF : ValidFrame F) :
    F = FRAME_HEADER :: F.tail := by
  obtain ⟨-, hh, -⟩ := hF
  cases F with
  | nil => simp at hh
  | cons a t => simp_all [List.head?]

/-- A scan pass over a header-free prefix, a valid frame and a remainder
emits exactly the parsed frame and leaves exactly the remainder. -/
theorem scanPass_emit (g F rest : List Nat) (hg : ∀ b ∈ g, b ≠ FRAME_HEADER)
    (hF : ValidFrame F) :
    scanPass (g ++ F ++ rest) = (rest, [parse_frame F]) := by
  obtain ⟨hlen, hh, hfoot⟩ := hF
  have hcons : F ++ rest = FRAME_HEADER :: (F.tail ++ rest) := by
    conv_lhs => rw [ValidFrame.eq_cons ⟨hlen, hh, hfoot⟩]
    simp
  have hfind : findHeader (g ++ F ++ rest) = some g.length := by
    rw [List.append_assoc, hcons]
    exact findHeader_append g _ hg
  have hlen2 : (g ++ F ++ rest).length = g.length + 11 + rest.length := by
    simp only [List.length_append, hlen, frame_len]
  have hdropg : (g ++ F ++ rest).drop g.length = F ++ rest := by
    rw [List.append_assoc]
    exact List.drop_left g (F ++ rest)
  have hcand : ((g ++ F ++ rest).drop g.length).take frame_len = F := by
    rw [hdropg]
    exact List.take_left' hlen
  have hconsume : (g ++ F ++ rest).drop (g.length + frame_len) = rest := by
    rw [← List.drop_drop, hdropg]
    exact List.drop_left' hlen
  rw [scanPass_eq_some _ g.length hfind, hcand,
    if_neg (by rw [hlen2]; simp only [frame_len]; omega), hfoot,
    if_pos (by simp), hconsume]

/-- A scan pass waits, changing nothing, when the buffer starts with the
header byte but holds fewer than frame_len bytes. -/
theorem scanPass_wait (buf : List Nat) (hh : buf.head? = some FRAME_HEADER)
    (hl : buf.length < frame_len) :
    scanPass buf = (buf, []) := by
  obtain ⟨t, rfl⟩ : ∃ t, buf = FRAME_HEADER :: t := by
    cases buf with
    | nil => simp at hh
    | cons a t => exact ⟨t, by simp_all [List.head?]⟩
  have hfind : findHeader (FRAME_HEADER :: t) = some 0 := by
    simp [findHeader]
  rw [scanPass_eq_some _ 0 hfind, if_pos (by simpa using hl)]

/-- A scan pass over a header-free buffer either clears it (past the
2048-byte flood guard) or leaves it untouched, emitting nothing. -/
theorem scanPass_noheader (buf : List Nat) (h : ∀ b ∈ buf, b ≠ FRAME_HEADER) :
    scanPass buf = (if buf.length > 2048 then [] else buf, []) := by
  rw [scanPass_eq_none _ (findHeader_eq_none buf h)]
  split <;> rfl

/-- An empty read chunk is skipped without touching the buffer. -/
theorem feed_nil (buf : List Nat) : feed buf [] = (buf, []) := rfl

/-- A non-empty chunk is appended and then scanned once. -/
theorem feed_of_ne (buf chunk : List Nat) (h : chunk ≠ []) :
    feed buf chunk = scanPass (buf ++ chunk) := by
  unfold feed
  rw [if_neg (by simpa using h)]

/-- Unfolding of feedMany over a first chunk. -/
theorem feedMany_cons (buf c : List Nat) (cs : List (List Nat)) :
    feedMany buf (c :: cs) =
      ((feedMany (feed buf c).1 cs).1, (feed buf c).2 ++ (feedMany (feed buf c).1 cs).2) := rfl

/-- Feeding only empty chunks changes nothing and emits nothing. -/
theorem feedMany_nil_chunks (chunks : List (List Nat)) (h : ∀ c ∈ chunks, c = []) :
    ∀ buf, feedMany buf chunks = (buf, []) := by
  induction chunks with
  | nil => intro buf; rfl
  | cons c cs ih =>
    intro buf
    have hc : c = [] := h c (by simp)
    subst hc
    rw [feedMany_cons, feed_nil, ih (fun x hx => h x (by simp [hx]))]
    rfl

/-- A flattened chunk list that is empty consists of empty chunks. -/
theorem eq_nil_of_flatten_eq_nil (cs : List (List Nat)) (h : cs.flatten = []) :
    ∀ x ∈ cs, x = [] := by
  induction cs with
  | nil => simp
  | cons c cs ih =>
    simp only [List.flatten_cons, List.append_eq_nil] at h
    intro x hx
    rcases List.mem_cons.mp hx with rfl | hmem
    · exact h.1
    · exact ih h.2 x hmem

/-- A scan pass over a buffer of header bytes only discards exactly one
byte: the first header byte is found at index 0, its 11-byte window ends
in another header byte rather than the footer, and the prefix through the
false header is removed. -/
theorem scanPass_replicate (m : Nat) (hm : 11 ≤ m) :
    scanPass (List.replicate m FRAME_HEADER) =
      (List.replicate (m - 1) FRAME_HEADER, []) := by
  have hfind : findHeader (List.replicate m FRAME_HEADER) = some 0 := by
    obtain ⟨k, rfl⟩ : ∃ k, m = k + 1 := ⟨m - 1, by omega⟩
    simp [List.replicate_succ, findHeader]
  have hcand : ((List.replicate m FRAME_HEADER).drop 0).take frame_len =
      List.replicate frame_len FRAME_HEADER := by
    rw [List.drop_zero, List.take_replicate]
    congr 1
    simp only [frame_len]
    omega
  rw [scanPass_eq_some _ 0 hfind,
    if_neg (by simp only [List.length_replicate, frame_len]; omega), hcand,
    if_neg (by decide), List.drop_replicate]

/-- Feeding n chunks of 64 header bytes each grows the buffer by exactly
63 bytes per chunk: the single scan pass of each feed discards only one
byte. -/
theorem feedMany_replicate (n : Nat) :
    ∀ m, (feedMany (List.replicate m FRAME_HEADER)
        (List.replicate n (List.replicate 64 FRAME_HEADER))).1 =
      List.replicate (m + 63 * n) FRAME_HEADER := by
  induction n with
  | zero => intro m; simp [feedMany]
  | succ k ih =>
    intro m
    rw [List.replicate_succ]
    have hfeed : feed (List.replicate m FRAME_HEADER) (List.replicate 64 FRAME_HEADER) =
        (List.replicate (m + 63) FRAME_HEADER, []) := by
      rw [feed_of_ne _ _ (by simp), ← List.replicate_add,
        scanPass_replicate (m + 64) (by omega)]
      have h1 : m + 64 - 1 = m + 63 := by omega
      rw [h1]
    rw [feedMany_cons, hfeed]
    show (feedMany (List.replicate (m + 63) FRAME_HEADER) _).1 = _
    rw [ih (m + 63)]
    congr 1
    omega

/-- Header-free chunks keep the buffer header-free and no longer than the
2048-byte flood ceiling after every feed. -/
theorem feedMany_headerFree (chunks : List (List Nat)) :
    ∀ buf, (∀ b ∈ buf, b ≠ FRAME_HEADER) → buf.length ≤ 2048 →
      (∀ c ∈ chunks, ∀ b ∈ c, b ≠ FRAME_HEADER) →
      (∀ b ∈ (feedMany buf chunks).1, b ≠ FRAME_HEADER) ∧
        ((feedMany buf chunks).1).length ≤ 2048 := by
  induction chunks with
  | nil => intro buf h1 h2 _; exact ⟨h1, h2⟩
  | cons c cs ih =>
    intro buf h1 h2 h3
    have h3cs : ∀ x ∈ cs, ∀ b ∈ x, b ≠ FRAME_HEADER :=
      fun x hx => h3 x (by simp [hx])
    by_cases hc : c = []
    · subst hc
      rw [feedMany_cons, feed_nil]
      exact ih buf h1 h2 h3cs
    · have hfree : ∀ b ∈ buf ++ c, b ≠ FRAME_HEADER := by
        intro b hb
        rcases List.mem_append.mp hb with h | h
        · exact h1 b h
        · exact h3 c (by simp) b h
      have hf : feed buf c = (if (buf ++ c).length > 2048 then [] else buf ++ c, []) := by
        rw [feed_of_ne _ _ hc, scanPass_noheader _ hfree]
      rw [feedMany_cons, hf]
      by_cases hlen : (buf ++ c).length > 2048
      · rw [if_pos hlen]
        exact ih [] (by simp) (by simp) h3cs
      · rw [if_neg hlen]
        exact ih (buf ++ c) hfree (by omega) h3cs

/-- Feeding any partition of the remainder of a valid frame, with a
proper prefix of the frame already buffered, emits exactly the parsed
frame and empties the buffer; a scan pass over an incomplete frame waits
without discarding anything. -/
theorem feedMany_partition (F : List Nat) (hF : ValidFrame F)
    (chunks : List (List Nat)) :
    ∀ k, k < frame_len → chunks.flatten = F.drop k →
      feedMany (F.take k) chunks = ([], [parse_frame F]) := by
  have hlen : F.length = frame_len := hF.1
  induction chunks with
  | nil =>
    intro k hk hflat
    exfalso
    have hd : (F.drop k).length = 0 := by
      rw [← hflat]
      rfl
    rw [List.length_drop, hlen] at hd
    omega
  | cons c cs ih =>
    intro k hk hflat
    rw [List.flatten_cons] at hflat
    by_cases hc : c = []
    · subst hc
      rw [List.nil_append] at hflat
      rw [feedMany_cons, feed_nil]
      exact ih k hk hflat
    · have hcl : c.length + cs.flatten.length = frame_len - k := by
        have := congrArg List.length hflat
        simp only [List.length_append, List.length_drop, hlen] at this
        omega
      have hkc : k + c.length ≤ frame_len := by omega
      have hcval : c = (F.drop k).take c.length := by
        rw [← hflat]
        exact (List.take_left c cs.flatten).symm
      have htake : F.take k ++ c = F.take (k + c.length) := by
        rw [List.take_add, ← hcval]
      have hflat2 : cs.flatten = F.drop (k + c.length) := by
        have := congrArg (List.drop c.length) hflat
        rw [List.drop_left c cs.flatten] at this
        rw [this, List.drop_drop, Nat.add_comm]
      rw [feedMany_cons, feed_of_ne _ _ hc, htake]
      by_cases hfull : k + c.length < frame_len
      · have hwait : scanPass (F.take (k + c.length)) = (F.take (k + c.length), []) := by
          apply scanPass_wait
          · have hcz : c.length ≠ 0 := by simpa using hc
            obtain ⟨j, hj⟩ : ∃ j, k + c.length = j + 1 := ⟨k + c.length - 1, by omega⟩
            rw [ValidFrame.eq_cons hF, hj]
            simp
          · rw [List.length_take, hlen]
            omega
        rw [hwait]
        exact ih (k + c.length) hfull hflat2
      · have hfl : k + c.length = frame_len := by omega
        have htf : F.take (k + c.length) = F := by
          rw [hfl, ← hlen, List.take_length]
        have hemit : scanPass (F.take (k + c.length)) = ([], [parse_frame F]) := by
          rw [htf]
          simpa using scanPass_emit [] F [] (by simp) hF
        have hcs : ∀ x ∈ cs, x = [] := by
          apply eq_nil_of_flatten_eq_nil
          rw [hflat2, hfl, ← hlen, List.drop_length]
        rw [hemit, feedMany_nil_chunks cs hcs]
        rfl

/-- parse_frame on an explicit 11-byte list: the first and last byte are
dropped without inspection, the next eight bytes are recombined as four
big-endian 16-bit values, and the ninth payload byte supplies the two
direction bits. -/
theorem parse_frame_explicit (x a0 a1 b0 b1 c0 c1 e0 e1 db y : Nat) :
    parse_frame [x, a0, a1, b0, b1, c0, c1, e0, e1, db, y] =
      some { m1 := a0 * 256 + a1, m2 := b0 * 256 + b1, s1 := c0 * 256 + c1,
             s2 := e0 * 256 + e1,
             dir_m1 := db &&& 0x01 != 0, dir_m2 := db &&& 0x02 != 0 } := rfl

/-- C1: Round trip.  For all magnitudes in 0..65535 and all integer
direction inputs, build_packet succeeds and parse_frame applied to its
output returns exactly the four magnitudes together with the low bit of
each direction input (dir_m1 is true exactly when the low bit of d1 is 1,
and likewise dir_m2 for d2). -/
theorem encode_decode_roundtrip (m1 m2 s1 s2 d1 d2 : Int)
    (hm1l : 0 ≤ m1) (hm1r : m1 ≤ 65535) (hm2l : 0 ≤ m2) (hm2r : m2 ≤ 65535)
    (hs1l : 0 ≤ s1) (hs1r : s1 ≤ 65535) (hs2l : 0 ≤ s2) (hs2r : s2 ≤ 65535) :
    ∃ frame, build_packet m1 m2 s1 s2 d1 d2 = some frame ∧
      parse_frame frame = some {
        m1 := m1.toNat, m2 := m2.toNat, s1 := s1.toNat, s2 := s2.toNat,
        dir_m1 := d1 % 2 == 1, dir_m2 := d2 % 2 == 1 } ∧
      (m1.toNat : Int) = m1 ∧ (m2.toNat : Int) = m2 ∧
      (s1.toNat : Int) = s1 ∧ (s2.toNat : Int) = s2 := by
  refine ⟨(FRAME_HEADER ::
      (be16 m1.toNat ++ be16 m2.toNat ++ be16 s1.toNat ++ be16 s2.toNat ++
        [pyBit0 d1 ||| (pyBit0 d2 <<< 1)])) ++ [FRAME_FOOTER], ?_, ?_,
    Int.toNat_of_nonneg hm1l, Int.toNat_of_nonneg hm2l,
    Int.toNat_of_nonneg hs1l, Int.toNat_of_nonneg hs2l⟩
  · rw [build_packet, if_pos ⟨hm1l, hm1r, hm2l, hm2r, hs1l, hs1r, hs2l, hs2r⟩]
  · have hfr : (FRAME_HEADER ::
        (be16 m1.toNat ++ be16 m2.toNat ++ be16 s1.toNat ++ be16 s2.toNat ++
          [pyBit0 d1 ||| (pyBit0 d2 <<< 1)])) ++ [FRAME_FOOTER] =
        [FRAME_HEADER, m1.toNat / 256, m1.toNat % 256, m2.toNat / 256, m2.toNat % 256,
         s1.toNat / 256, s1.toNat % 256, s2.toNat / 256, s2.toNat % 256,
         pyBit0 d1 ||| (pyBit0 d2 <<< 1), FRAME_FOOTER] := by
      simp [be16]
    rw [hfr, parse_frame_explicit]
    have hb1 : ((pyBit0 d1 ||| (pyBit0 d2 <<< 1)) &&& 0x01 != 0) = (d1 % 2 == 1) := by
      unfold pyBit0
      by_cases h1 : d1 % 2 == 1 <;> by_cases h2 : d2 % 2 == 1 <;> simp [h1, h2]
    have hb2 : ((pyBit0 d1 ||| (pyBit0 d2 <<< 1)) &&& 0x02 != 0) = (d2 % 2 == 1) := by
      unfold pyBit0
      by_cases h1 : d1 % 2 == 1 <;> by_cases h2 : d2 % 2 == 1 <;> simp [h1, h2]
    simp only [ControlValues.mk.injEq, Option.some_inj]
    refine ⟨by omega, by omega, by omega, by omega, hb1, hb2⟩

/-- C5: build_packet fails (raising ValueError in the source, modelled
as none) exactly when one of the four magnitudes lies outside 0..65535,
for every choice of the direction inputs; and the direction inputs only
contribute their low bit, so replacing them by their low bits yields the
identical packet. -/
theorem build_packet_range_check (m1 m2 s1 s2 d1 d2 : Int) :
    (build_packet m1 m2 s1 s2 d1 d2 = none ↔
      ¬(0 ≤ m1 ∧ m1 ≤ 65535 ∧ 0 ≤ m2 ∧ m2 ≤ 65535 ∧
        0 ≤ s1 ∧ s1 ≤ 65535 ∧ 0 ≤ s2 ∧ s2 ≤ 65535)) ∧
    build_packet m1 m2 s1 s2 d1 d2 = build_packet m1 m2 s1 s2 (d1 % 2) (d2 % 2) := by
  constructor
  · unfold build_packet
    split
    · simp_all
    · simp_all
  · have h1 : pyBit0 (d1 % 2) = pyBit0 d1 := by
      unfold pyBit0
      rw [Int.emod_emod_of_dvd d1 (dvd_refl 2)]
    have h2 : pyBit0 (d2 % 2) = pyBit0 d2 := by
      unfold pyBit0
      rw [Int.emod_emod_of_dvd d2 (dvd_refl 2)]
    unfold build_packet
    rw [h1, h2]

/-- C6: every frame produced by build_packet has length exactly 11, with
the header byte first and the footer byte last; and parse_frame fails on
every input whose length differs from 11. -/
theorem frame_fixed_size :
    (∀ m1 m2 s1 s2 d1 d2 frame, build_packet m1 m2 s1 s2 d1 d2 = some frame →
      frame.length = 11 ∧ frame.head? = some FRAME_HEADER ∧
        frame.getLast? = some FRAME_FOOTER) ∧
    (∀ l : List Nat, l.length ≠ 11 → parse_frame l = none) := by
  constructor
  · intro m1 m2 s1 s2 d1 d2 frame h
    unfold build_packet at h
    split at h
    · rw [Option.some_inj] at h
      subst h
      refine ⟨by simp [be16], rfl, List.getLast?_concat _⟩
    · exact absurd h (by simp)
  · intro l hl
    have h9 : ¬ ((l.drop 1).take (l.length - 2)).length = 9 := by
      rw [List.length_take, List.length_drop]
      omega
    simp only [parse_frame]
    rw [if_neg h9]

/-- C6 witness at concrete inputs. -/
theorem frame_fixed_size_witness :
    ([0x0D, 0x03, 0xE8, 0x05, 0xDC, 0x07, 0xD0, 0x09, 0xC4, 0x02, 0x20] : List Nat).length = 11 ∧
    parse_frame [1, 2, 3] = none := by
  refine ⟨(frame_fixed_size.1 1000 1500 2000 2500 0 1 _ (by decide)).1,
    frame_fixed_size.2 [1, 2, 3] (by decide)⟩

/-- C3 counterexample: an 11-byte input whose first byte is not the
header 0x0D and whose last byte is not the footer 0x20 is nevertheless
decoded successfully by parse_frame, which never inspects the sentinel
positions. -/
theorem parse_frame_accepts_bad_sentinels :
    ([0, 0, 0, 0, 0, 0, 0, 0, 0, 2, 0] : List Nat).length = 11 ∧
    (0 : Nat) ≠ FRAME_HEADER ∧ (0 : Nat) ≠ FRAME_FOOTER ∧
    parse_frame [0, 0, 0, 0, 0, 0, 0, 0, 0, 2, 0] =
      some { m1 := 0, m2 := 0, s1 := 0, s2 := 0, dir_m1 := false, dir_m2 := true } := by
  decide

/-- C3 amended: parse_frame succeeds exactly on inputs of length 11; it
performs no check of the header or footer byte. -/
theorem parse_frame_length_only_check (l : List Nat) :
    (parse_frame l).isSome ↔ l.length = 11 := by
  simp only [parse_frame, List.length_take, List.length_drop]
  split
  next h => simp only [Option.isSome_some, true_iff]; omega
  next h => simp only [Option.isSome_none, Bool.false_eq_true, false_iff]; omega

/-- C1 witness at the concrete example of the spec. -/
theorem encode_decode_roundtrip_witness :
    ∃ frame, build_packet 1000 1500 2000 2500 0 1 = some frame ∧
      parse_frame frame = some {
        m1 := (1000 : Int).toNat, m2 := (1500 : Int).toNat,
        s1 := (2000 : Int).toNat, s2 := (2500 : Int).toNat,
        dir_m1 := (0 : Int) % 2 == 1, dir_m2 := (1 : Int) % 2 == 1 } ∧
      (((1000 : Int).toNat : Int) = 1000) ∧ (((1500 : Int).toNat : Int) = 1500) ∧
      (((2000 : Int).toNat : Int) = 2000) ∧ (((2500 : Int).toNat : Int) = 2500) :=
  encode_decode_roundtrip 1000 1500 2000 2500 0 1 (by decide) (by decide) (by decide)
    (by decide) (by decide) (by decide) (by decide) (by decide)

/-- feedMany of no chunks is the identity. -/
theorem feedMany_nil (buf : List Nat) : feedMany buf [] = (buf, []) := rfl

/-- C7: split-feed equivalence.  Feeding any partition of a valid frame
into sub-chunks to a fresh scanner emits exactly the one decoded frame
and empties the buffer, the same result as feeding the whole frame in a
single call; the proof of feedMany_partition shows each intermediate
pass waits without discarding while fewer than 11 bytes are buffered. -/
theorem split_feed_equivalence (F : List Nat) (hF : ValidFrame F)
    (chunks : List (List Nat)) (hflat : chunks.flatten = F) :
    feedMany [] chunks = ([], [parse_frame F]) ∧
    feed [] F = ([], [parse_frame F]) := by
  constructor
  · have h := feedMany_partition F hF chunks 0 (by simp [frame_len]) (by simpa using hflat)
    simpa using h
  · have hne : F ≠ [] := by
      intro h
      have h1 := hF.1
      rw [h] at h1
      simp [frame_len] at h1
    rw [feed_of_ne _ _ hne, List.nil_append]
    simpa using scanPass_emit [] F [] (by simp) hF

/-- C7 witness: the concrete example frame fed one byte per call. -/
theorem split_feed_equivalence_witness :
    feedMany [] [[0x0D], [0x03], [0xE8], [0x05], [0xDC], [0x07], [0xD0], [0x09],
        [0xC4], [0x02], [0x20]] =
      ([], [parse_frame [0x0D, 0x03, 0xE8, 0x05, 0xDC, 0x07, 0xD0, 0x09, 0xC4, 0x02, 0x20]]) ∧
    feed [] [0x0D, 0x03, 0xE8, 0x05, 0xDC, 0x07, 0xD0, 0x09, 0xC4, 0x02, 0x20] =
      ([], [parse_frame [0x0D, 0x03, 0xE8, 0x05, 0xDC, 0x07, 0xD0, 0x09, 0xC4, 0x02, 0x20]]) :=
  split_feed_equivalence [0x0D, 0x03, 0xE8, 0x05, 0xDC, 0x07, 0xD0, 0x09, 0xC4, 0x02, 0x20]
    (by decide)
    [[0x0D], [0x03], [0xE8], [0x05], [0xDC], [0x07], [0xD0], [0x09], [0xC4], [0x02], [0x20]]
    (by decide)

set_option maxRecDepth 20000 in
/-- C2 counterexample: one feed call whose chunk is garbage, a valid
frame, more garbage and a second valid frame emits only the first
decoded frame, not both, because the loop body of main_listen_loop makes
a single extraction pass per received chunk before reading again. -/
theorem single_feed_emits_first_frame_only :
    (feed [] ([1, 2, 3] ++ [13, 3, 232, 5, 220, 7, 208, 9, 196, 2, 32] ++ [4, 5] ++
      [13, 0, 1, 0, 2, 0, 3, 0, 4, 1, 32])).2 =
      [parse_frame [13, 3, 232, 5, 220, 7, 208, 9, 196, 2, 32]] ∧
    (feed [] ([1, 2, 3] ++ [13, 3, 232, 5, 220, 7, 208, 9, 196, 2, 32] ++ [4, 5] ++
      [13, 0, 1, 0, 2, 0, 3, 0, 4, 1, 32])).2 ≠
      [parse_frame [13, 3, 232, 5, 220, 7, 208, 9, 196, 2, 32],
       parse_frame [13, 0, 1, 0, 2, 0, 3, 0, 4, 1, 32]] := by
  refine ⟨by decide, by decide⟩

/-- C2 amended: with header-free garbage, the single pass of the feed
call emits exactly the first decoded frame, retaining the rest of the
data; the second frame is then emitted by the next feed call carrying any
non-empty header-free chunk, so both frames are emitted in order across
the two calls. -/
theorem resync_across_feeds (g1 g2 c F1 F2 : List Nat)
    (hg1 : ∀ b ∈ g1, b ≠ FRAME_HEADER) (hg2 : ∀ b ∈ g2, b ≠ FRAME_HEADER)
    (hcne : c ≠ []) (hF1 : ValidFrame F1) (hF2 : ValidFrame F2) :
    feed [] (g1 ++ F1 ++ g2 ++ F2) = (g2 ++ F2, [parse_frame F1]) ∧
    feedMany [] [g1 ++ F1 ++ g2 ++ F2, c] = (c, [parse_frame F1, parse_frame F2]) := by
  have hne1 : F1 ≠ [] := by
    intro h
    have h1 := hF1.1
    rw [h] at h1
    simp [frame_len] at h1
  have hchunkne : g1 ++ F1 ++ g2 ++ F2 ≠ [] := by simp [hne1]
  have h1 : feed [] (g1 ++ F1 ++ g2 ++ F2) = (g2 ++ F2, [parse_frame F1]) := by
    rw [feed_of_ne _ _ hchunkne, List.nil_append, List.append_assoc (g1 ++ F1) g2 F2]
    exact scanPass_emit g1 F1 (g2 ++ F2) hg1 hF1
  have h2 : feed (g2 ++ F2) c = (c, [parse_frame F2]) := by
    rw [feed_of_ne _ _ hcne]
    exact scanPass_emit g2 F2 c hg2 hF2
  refine ⟨h1, ?_⟩
  rw [feedMany_cons, h1]
  show ((feedMany (feed (g2 ++ F2) c).1 []).1,
    [parse_frame F1] ++ ((feed (g2 ++ F2) c).2 ++ (feedMany (feed (g2 ++ F2) c).1 []).2)) = _
  rw [h2]
  rfl

/-- C2 witness at concrete garbage and frames. -/
theorem resync_across_feeds_witness :
    feed [] ([1, 2] ++ [13, 3, 232, 5, 220, 7, 208, 9, 196, 2, 32] ++ [3] ++
        [13, 0, 1, 0, 2, 0, 3, 0, 4, 1, 32]) =
      ([3] ++ [13, 0, 1, 0, 2, 0, 3, 0, 4, 1, 32],
       [parse_frame [13, 3, 232, 5, 220, 7, 208, 9, 196, 2, 32]]) ∧
    feedMany [] [[1, 2] ++ [13, 3, 232, 5, 220, 7, 208, 9, 196, 2, 32] ++ [3] ++
        [13, 0, 1, 0, 2, 0, 3, 0, 4, 1, 32], [7]] =
      ([7], [parse_frame [13, 3, 232, 5, 220, 7, 208, 9, 196, 2, 32],
             parse_frame [13, 0, 1, 0, 2, 0, 3, 0, 4, 1, 32]]) :=
  resync_across_feeds [1, 2] [3] [7] [13, 3, 232, 5, 220, 7, 208, 9, 196, 2, 32]
    [13, 0, 1, 0, 2, 0, 3, 0, 4, 1, 32]
    (by decide) (by decide) (by decide) (by decide) (by decide)

/-- C8: a found header whose full 11-byte window lacks the footer makes
the pass drop exactly idx + 1 bytes from the buffer front, strictly
shrinking the buffer; and in general every pass either emits, strictly
shrinks the buffer, or leaves it untouched to wait for more input. -/
theorem false_header_discard (buf : List Nat) (idx : Nat)
    (hfind : findHeader buf = some idx)
    (hlen : frame_len ≤ buf.length - idx)
    (hfoot : ¬ ((buf.drop idx).take frame_len).getLast? = some FRAME_FOOTER) :
    scanPass buf = (buf.drop (idx + 1), []) ∧
    ((scanPass buf).1).length + (idx + 1) = buf.length ∧
    ((scanPass buf).1).length < buf.length ∧
    (∀ b : List Nat, (scanPass b).2 ≠ [] ∨ ((scanPass b).1).length < b.length ∨
      (scanPass b).1 = b) := by
  have hlen11 : 11 ≤ buf.length - idx := hlen
  have hstep : scanPass buf = (buf.drop (idx + 1), []) := by
    rw [scanPass_eq_some _ idx hfind,
      if_neg (show ¬ buf.length - idx < frame_len by simp only [frame_len]; omega),
      if_neg (by simpa using hfoot)]
  refine ⟨hstep, ?_, ?_, ?_⟩
  · rw [hstep]
    simp only [List.length_drop]
    omega
  · rw [hstep]
    simp only [List.length_drop]
    omega
  · intro b
    rcases hfd : findHeader b with _ | i
    · rw [scanPass_eq_none _ hfd]
      by_cases hb : b.length > 2048
      · rw [if_pos hb]
        right; left
        simp only [List.length_nil]
        omega
      · rw [if_neg hb]
        right; right
        rfl
    · rw [scanPass_eq_some _ i hfd]
      by_cases hw : b.length - i < frame_len
      · rw [if_pos hw]
        right; right
        rfl
      · rw [if_neg hw]
        by_cases hft : ((b.drop i).take frame_len).getLast? == some FRAME_FOOTER
        · rw [if_pos hft]
          left
          simp
        · rw [if_neg hft]
          right; left
          simp only [List.length_drop]
          simp only [frame_len] at hw
          omega

/-- C8 witness: an 11-byte buffer of a header followed by zero bytes has
its false header at index 0 discarded. -/
theorem false_header_discard_witness :
    scanPass [13, 0, 0, 0, 0, 0, 0, 0, 0, 0, 0] =
      (List.drop (0 + 1) [13, 0, 0, 0, 0, 0, 0, 0, 0, 0, 0], []) ∧
    ((scanPass [13, 0, 0, 0, 0, 0, 0, 0, 0, 0, 0]).1).length + (0 + 1) =
      ([13, 0, 0, 0, 0, 0, 0, 0, 0, 0, 0] : List Nat).length ∧
    ((scanPass [13, 0, 0, 0, 0, 0, 0, 0, 0, 0, 0]).1).length <
      ([13, 0, 0, 0, 0, 0, 0, 0, 0, 0, 0] : List Nat).length :=
  have h := false_header_discard [13, 0, 0, 0, 0, 0, 0, 0, 0, 0, 0] 0
    (by decide) (by decide) (by decide)
  ⟨h.1, h.2.1, h.2.2.1⟩

/-- C9: when the buffer holds no header byte after the chunk is
appended, the buffer is cleared exactly when it exceeds 2048 bytes and
retained unchanged otherwise, with nothing emitted; and a valid frame
fed after such a clear (buffer empty) is found and decoded. -/
theorem flood_clear_and_recovery (buf chunk : List Nat) (hne : chunk ≠ [])
    (hnohdr : ∀ b ∈ buf ++ chunk, b ≠ FRAME_HEADER) :
    feed buf chunk = (if (buf ++ chunk).length > 2048 then [] else buf ++ chunk, []) ∧
    (∀ F, ValidFrame F → feed [] F = ([], [parse_frame F])) := by
  constructor
  · rw [feed_of_ne _ _ hne, scanPass_noheader _ hnohdr]
  · intro F hF
    have hne2 : F ≠ [] := by
      intro h
      have h1 := hF.1
      rw [h] at h1
      simp [frame_len] at h1
    rw [feed_of_ne _ _ hne2, List.nil_append]
    simpa using scanPass_emit [] F [] (by simp) hF

/-- C9 witness: a 2049-byte header-free flood clears the buffer, after
which the concrete example frame is decoded. -/
theorem flood_clear_and_recovery_witness :
    feed [] (List.replicate 2049 0) =
      (if (([] : List Nat) ++ List.replicate 2049 0).length > 2048 then []
       else [] ++ List.replicate 2049 0, []) ∧
    feed [] [13, 3, 232, 5, 220, 7, 208, 9, 196, 2, 32] =
      ([], [parse_frame [13, 3, 232, 5, 220, 7, 208, 9, 196, 2, 32]]) :=
  have h := flood_clear_and_recovery [] (List.replicate 2049 0)
    (fun h0 => by
      have h1 := congrArg List.length h0
      rw [List.length_replicate, List.length_nil] at h1
      exact absurd h1 (by decide))
    (by
      intro b hb
      rw [List.nil_append, List.mem_replicate] at hb
      rw [hb.2]
      decide)
  ⟨h.1, h.2 [13, 3, 232, 5, 220, 7, 208, 9, 196, 2, 32] (by decide)⟩

/-- C4 counterexample: one hundred 64-byte chunks of header bytes leave a
6300-byte buffer, far beyond the 2048-byte flood ceiling plus one chunk,
because the flood guard only applies when no header byte is present. -/
theorem buffer_growth_counterexample :
    ((feedMany [] (List.replicate 100 (List.replicate 64 FRAME_HEADER))).1).length = 6300 ∧
    2048 + 64 < 6300 := by
  constructor
  · have h := feedMany_replicate 100 0
    rw [show List.replicate 0 FRAME_HEADER = ([] : List Nat) from rfl] at h
    rw [h, List.length_replicate]
  · norm_num

/-- C4 amended: the accumulation buffer stays within the 2048-byte flood
ceiling for header-free input streams, but for a stream of header bytes
it grows linearly (63 bytes per 64-byte chunk) without any bound. -/
theorem flood_guard_scope :
    (∀ chunks : List (List Nat), (∀ c ∈ chunks, ∀ b ∈ c, b ≠ FRAME_HEADER) →
      ((feedMany [] chunks).1).length ≤ 2048) ∧
    (∀ n, ((feedMany [] (List.replicate n (List.replicate 64 FRAME_HEADER))).1).length =
      63 * n) := by
  constructor
  · intro chunks h
    exact (feedMany_headerFree chunks [] (by simp) (by simp) h).2
  · intro n
    have h := feedMany_replicate n 0
    rw [show List.replicate 0 FRAME_HEADER = ([] : List Nat) from rfl] at h
    rw [h]
    simp

/-- C4 amended witness at concrete inputs. -/
theorem flood_guard_scope_witness :
    ((feedMany [] [[1, 2, 3]]).1).length ≤ 2048 ∧
    ((feedMany [] (List.replicate 2 (List.replicate 64 FRAME_HEADER))).1).length = 63 * 2 :=
  ⟨flood_guard_scope.1 [[1, 2, 3]] (by decide), flood_guard_scope.2 2⟩

/-- C10: the servo wrapper updates at most the s1 and s2 fields of the
persistent state and the motor wrapper at most m1, m2, d1 and d2; a None
argument leaves its field unchanged. -/
theorem motor_servo_frame_effect (st : TxState) (m1 m2 dd1 dd2 s1 s2 : Option Int) :
    ((servo st s1 s2).m1 = st.m1 ∧ (servo st s1 s2).m2 = st.m2 ∧
      (servo st s1 s2).d1 = st.d1 ∧ (servo st s1 s2).d2 = st.d2) ∧
    ((motor st m1 m2 dd1 dd2).s1 = st.s1 ∧ (motor st m1 m2 dd1 dd2).s2 = st.s2) ∧
    (servo st none none = st ∧ motor st none none none none = st) ∧
    ((servo st none s2).s1 = st.s1 ∧ (servo st s1 none).s2 = st.s2 ∧
      (motor st none m2 dd1 dd2).m1 = st.m1 ∧ (motor st m1 none dd1 dd2).m2 = st.m2 ∧
      (motor st m1 m2 none dd2).d1 = st.d1 ∧ (motor st m1 m2 dd1 none).d2 = st.d2) :=
  ⟨⟨rfl, rfl, rfl, rfl⟩, ⟨rfl, rfl⟩, ⟨rfl, rfl⟩, rfl, rfl, rfl, rfl, rfl, rfl⟩

end ControlCommand
